import Mathlib

/-!
Verification of the FitLayout python client CLI (`flclient/cli.py`).

The development shallowly embeds the observable behaviour of the
`FitLayoutCLI` methods as pure Lean functions:

* file payloads are `List Char` (the text read from the input file);
* Python's line iteration over a file (`for line in f`, which yields each
  line with its trailing newline kept) is `pyLines`;
* network and console side effects become an explicit event trace
  (`Ev`): every `Ev.post` models a `requests.post` to
  `repo_endpoint() + "/repository/statements"`, every `Ev.get` a
  `requests.get` to the same endpoint, `Ev.openOut`/`Ev.writeOut` the
  opening (truncating) and writing of a local output file, and `Ev.msg`
  a `print` diagnostic (messages carry their data rather than the
  formatted text);
* the HTTP layer is abstracted by `net : Nat → Bool`, giving the
  success of the k-th POST issued (`raise_for_status` raises exactly
  when it is `false`);
* a Python exception escaping a method is the `Option PyErr` component
  of its result; `None` means the method returned normally.
-/

set_option autoImplicit false

namespace FLClient

/-- The `FitLayoutCLI.mime_types` dictionary: `dict.get` on the five
supported serialization formats. -/
def mime_types (format : String) : Option String :=
  if format = "turtle" then some "text/turtle"
  else if format = "n3" then some "application/n-triples"
  else if format = "json-ld" then some "application/ld+json"
  else if format = "xml" then some "application/edf+xml"
  else if format = "nquads" then some "application/n-quads"
  else none

/-- The text formed by joining `self.mime_types.keys()` with `", "`, printed by the
unsupported-format diagnostics (python dicts preserve insertion order). -/
def supportedFormats : String := "turtle, n3, json-ld, xml, nquads"

/-- Helper for `pyLines`: accumulates the current (unfinished) line while
scanning the remaining characters. -/
def pyLinesAux : List Char → List Char → List (List Char)
  | acc, [] => if acc.isEmpty then [] else [acc]
  | acc, c :: cs =>
      if c = '\n' then (acc ++ [c]) :: pyLinesAux [] cs
      else pyLinesAux (acc ++ [c]) cs

/-- Python's file line iteration: splits the payload after every newline
character, keeping the newline at the end of each line; the final line may
lack a trailing newline. -/
def pyLines (cs : List Char) : List (List Char) := pyLinesAux [] cs

theorem pyLinesAux_flatten : ∀ (cs acc : List Char),
    (pyLinesAux acc cs).flatten = acc ++ cs := by
  intro cs
  induction cs with
  | nil =>
      intro acc
      by_cases h : acc.isEmpty
      · have : acc = [] := by
          cases acc with
          | nil => rfl
          | cons a t => simp at h
        simp [pyLinesAux, h, this]
      · simp [pyLinesAux, h]
  | cons c cs ih =>
      intro acc
      by_cases h : c = '\n'
      · simp [pyLinesAux, h, ih]
      · simp [pyLinesAux, h, ih]

theorem pyLines_flatten (cs : List Char) : (pyLines cs).flatten = cs := by
  simpa using pyLinesAux_flatten cs []

theorem pyLinesAux_ne_nil : ∀ (cs acc : List Char) (l : List Char),
    l ∈ pyLinesAux acc cs → l ≠ [] := by
  intro cs
  induction cs with
  | nil =>
      intro acc l hl
      by_cases h : acc.isEmpty
      · simp [pyLinesAux, h] at hl
      · simp [pyLinesAux, h] at hl
        subst hl
        exact fun hnil => h (by simp [hnil])
  | cons c cs ih =>
      intro acc l hl
      by_cases h : c = '\n'
      · simp [pyLinesAux, h] at hl
        rcases hl with hl | hl
        · subst hl; simp
        · exact ih [] l hl
      · simp only [pyLinesAux, if_neg h] at hl
        exact ih (acc ++ [c]) l hl

theorem pyLinesAux_dropLast_newline : ∀ (cs acc : List Char) (l : List Char),
    l ∈ (pyLinesAux acc cs).dropLast → l.getLast? = some '\n' := by
  intro cs
  induction cs with
  | nil =>
      intro acc l hl
      by_cases h : acc.isEmpty <;> simp [pyLinesAux, h] at hl
  | cons c cs ih =>
      intro acc l hl
      by_cases h : c = '\n'
      · simp only [pyLinesAux, if_pos h] at hl
        cases hrest : pyLinesAux [] cs with
        | nil => simp [hrest] at hl
        | cons r rs =>
            rw [hrest] at hl
            rw [List.dropLast_cons_of_ne_nil (by simp)] at hl
            rcases List.mem_cons.mp hl with hl | hl
            · subst hl
              simp [h]
            · exact ih [] l (by rw [hrest]; exact hl)
      · simp only [pyLinesAux, if_neg h] at hl
        exact ih (acc ++ [c]) l hl

/-- The chunk bodies produced by the chunked-import loop of
`import_file`: lines are accumulated into `chunk`; whenever
`(i + 1) % N == 0` the accumulated chunk is flushed as one body joining its lines;
a non-empty remainder is flushed at end of input. -/
def chunksGo (N : Nat) : Nat → List (List Char) → List (List Char) → List (List Char)
  | _, chunk, [] => if chunk.isEmpty then [] else [chunk.flatten]
  | i, chunk, line :: rest =>
      if (i + 1) % N = 0 then (chunk ++ [line]).flatten :: chunksGo N (i + 1) [] rest
      else chunksGo N (i + 1) (chunk ++ [line]) rest

/-- All chunk bodies sent for a payload whose lines are `lines`, with
`split = N`. -/
def importChunks (N : Nat) (lines : List (List Char)) : List (List Char) :=
  chunksGo N 0 [] lines

theorem chunksGo_flatten (N : Nat) : ∀ (lines : List (List Char)) (i : Nat)
    (chunk : List (List Char)),
    (chunksGo N i chunk lines).flatten = chunk.flatten ++ lines.flatten := by
  intro lines
  induction lines with
  | nil =>
      intro i chunk
      cases chunk with
      | nil => simp [chunksGo]
      | cons a t => simp [chunksGo]
  | cons line rest ih =>
      intro i chunk
      by_cases h : (i + 1) % N = 0
      · simp [chunksGo, h, ih]
      · simp [chunksGo, h, ih]

theorem importChunks_flatten (N : Nat) (lines : List (List Char)) :
    (importChunks N lines).flatten = lines.flatten := by
  simpa [importChunks] using chunksGo_flatten N lines 0 []

theorem chunksGo_single (N : Nat) : ∀ (lines : List (List Char)) (i : Nat)
    (chunk : List (List Char)), i + lines.length ≤ N →
    chunksGo N i chunk lines =
      if (chunk ++ lines).isEmpty then [] else [(chunk ++ lines).flatten] := by
  intro lines
  induction lines with
  | nil =>
      intro i chunk _
      simp [chunksGo]
  | cons line rest ih =>
      intro i chunk hle
      simp only [List.length_cons] at hle
      by_cases h : (i + 1) % N = 0
      · have hdvd : N ∣ i + 1 := Nat.dvd_of_mod_eq_zero h
        have hge : N ≤ i + 1 := Nat.le_of_dvd (by omega) hdvd
        have heq : i + 1 = N := by omega
        have hrest : rest = [] := List.length_eq_zero.mp (by omega)
        subst hrest
        simp [chunksGo, h]
      · have hrec := ih (i + 1) (chunk ++ [line]) (by omega)
        simp only [chunksGo, if_neg h]
        rw [hrec]
        simp

theorem chunksGo_dropLast_newline (N : Nat) : ∀ (lines : List (List Char)) (i : Nat)
    (chunk : List (List Char)),
    (lines ≠ [] → ∀ l ∈ chunk, l ≠ [] ∧ l.getLast? = some '\n') →
    (∀ l ∈ lines.dropLast, l ≠ [] ∧ l.getLast? = some '\n') →
    ∀ b ∈ (chunksGo N i chunk lines).dropLast, b ≠ [] ∧ b.getLast? = some '\n' := by
  intro lines
  induction lines with
  | nil =>
      intro i chunk _ _ b hb
      by_cases h : chunk.isEmpty <;> simp [chunksGo, h] at hb
  | cons line rest ih =>
      intro i chunk hchunk hlast b hb
      by_cases h : (i + 1) % N = 0
      · simp only [chunksGo, if_pos h] at hb
        cases hrec : chunksGo N (i + 1) [] rest with
        | nil => simp [hrec] at hb
        | cons r rs =>
            rw [hrec, List.dropLast_cons_of_ne_nil (by simp)] at hb
            rcases List.mem_cons.mp hb with hb | hb
            · subst hb
              have hrest : rest ≠ [] := by
                intro hnil
                subst hnil
                simp [chunksGo] at hrec
              have hline : line ≠ [] ∧ line.getLast? = some '\n' := by
                apply hlast
                cases rest with
                | nil => exact absurd rfl hrest
                | cons x xs => simp
              constructor
              · simp [hline.1]
              · rw [List.flatten_append, List.flatten_cons, List.flatten_nil,
                  List.append_nil]
                rw [List.getLast?_append_of_ne_nil _ hline.1]
                exact hline.2
            · apply ih (i + 1) [] (fun _ l hl => by simp at hl)
                (fun l hl => ?_) b (by rw [hrec]; exact hb)
              apply hlast
              cases rest with
              | nil => simp at hl
              | cons x xs =>
                  rw [List.dropLast_cons_of_ne_nil (by simp)]
                  exact List.mem_cons_of_mem _ hl
      · simp only [chunksGo, if_neg h] at hb
        refine ih (i + 1) (chunk ++ [line]) (fun hne l hl => ?_) (fun l hl => ?_) b hb
        · rcases List.mem_append.mp hl with hl | hl
          · apply hchunk (by simp) l hl
          · simp at hl
            subst hl
            apply hlast
            cases rest with
            | nil => exact absurd rfl hne
            | cons x xs => simp
        · apply hlast
          cases rest with
          | nil => simp at hl
          | cons x xs =>
              rw [List.dropLast_cons_of_ne_nil (by simp)]
              exact List.mem_cons_of_mem _ hl

/-- Data carried by the `print` diagnostics of the CLI methods (one
constructor per distinct message of the source). -/
inductive Msg where
  | unsupportedFormat (format : String) (supported : String)
  | importingChunks (split : Nat)
  | uploadedLines (total : Nat)
  | uploadedRemaining (count : Nat)
  | importFinished
  | importing
  | fileNotFound
  | importError
  | splitIgnoredWarning (format : String)
  | textOut (text : List Char)
  deriving DecidableEq

/-- Observable side effects, in program order. -/
inductive Ev where
  | post (contentType : String) (body : List Char)
  | get (accept : String)
  | openOut
  | writeOut (text : List Char)
  | msg (m : Msg)
  deriving DecidableEq

/-- A Python exception escaping a method to its caller. -/
inductive PyErr where
  | httpError
  | pluginError (format : String)
  deriving DecidableEq

/-- The POST requests of a trace: content type and body, in order. -/
def posts (evs : List Ev) : List (String × List Char) :=
  evs.filterMap fun e =>
    match e with
    | Ev.post ct b => some (ct, b)
    | _ => none

/-- The bodies of the POST requests of a trace, in order. -/
def postBodies (evs : List Ev) : List (List Char) := (posts evs).map Prod.snd

/-- The per-chunk success reports of a trace (the line counts printed by
the two upload progress messages). -/
def succReports (evs : List Ev) : List Nat :=
  evs.filterMap fun e =>
    match e with
    | Ev.msg (Msg.uploadedLines n) => some n
    | Ev.msg (Msg.uploadedRemaining n) => some n
    | _ => none

/-- Python truthiness of the `split` argument (`if split:`): false for
`None` and for `0`. -/
def splitTruthy : Option Nat → Bool
  | none => false
  | some n => decide (n ≠ 0)

/-- A network on which every request succeeds. -/
def allOk : Nat → Bool := fun _ => true

/-- The chunked upload loop of `import_file` (the `for i, line in
enumerate(f)` loop plus the final remainder flush): `k` counts the POSTs
issued so far, `i` the lines consumed, `chunk` is the accumulated buffer.
Each flush issues the POST and, if `raise_for_status` does not raise,
prints the progress message and continues; a failed POST aborts the loop
with the HTTP error. -/
def chunkGo (ct : String) (N : Nat) (net : Nat → Bool) :
    Nat → Nat → List (List Char) → List (List Char) → List Ev × Option PyErr
  | k, _, chunk, [] =>
      if chunk.isEmpty then ([], none)
      else if net k then
        ([Ev.post ct chunk.flatten, Ev.msg (Msg.uploadedRemaining chunk.length)], none)
      else ([Ev.post ct chunk.flatten], some PyErr.httpError)
  | k, i, chunk, line :: rest =>
      if (i + 1) % N = 0 then
        if net k then
          (Ev.post ct (chunk ++ [line]).flatten :: Ev.msg (Msg.uploadedLines (i + 1)) ::
              (chunkGo ct N net (k + 1) (i + 1) [] rest).1,
            (chunkGo ct N net (k + 1) (i + 1) [] rest).2)
        else ([Ev.post ct (chunk ++ [line]).flatten], some PyErr.httpError)
      else chunkGo ct N net k (i + 1) (chunk ++ [line]) rest

/-- The chunked branch of `import_file` (lines 212-234 of `cli.py`): the
opening print, then the loop inside `try`; a `FileNotFoundError` from
`open` and any `requests.exceptions.RequestException` are caught and
printed, so the method always returns normally. -/
def chunkedImport (ct : String) (N : Nat) (file : Option (List Char))
    (net : Nat → Bool) : List Ev × Option PyErr :=
  match file with
  | none => ([Ev.msg (Msg.importingChunks N), Ev.msg Msg.fileNotFound], none)
  | some cs =>
      match (chunkGo ct N net 0 0 [] (pyLines cs)).2 with
      | none =>
          (Ev.msg (Msg.importingChunks N) :: (chunkGo ct N net 0 0 [] (pyLines cs)).1
            ++ [Ev.msg Msg.importFinished], none)
      | some _ =>
          (Ev.msg (Msg.importingChunks N) :: (chunkGo ct N net 0 0 [] (pyLines cs)).1
            ++ [Ev.msg Msg.importError], none)

/-- The single-shot branch of `import_file` (lines 235-248 of `cli.py`):
optional warning print, the opening print, then one POST of the whole
file inside `try`; both exception classes are caught and printed. -/
def singleImport (ct : String) (format : String) (warn : Bool)
    (file : Option (List Char)) (net : Nat → Bool) : List Ev × Option PyErr :=
  let head := (if warn then [Ev.msg (Msg.splitIgnoredWarning format)] else [])
    ++ [Ev.msg Msg.importing]
  match file with
  | none => (head ++ [Ev.msg Msg.fileNotFound], none)
  | some cs =>
      if net 0 then (head ++ [Ev.post ct cs, Ev.msg Msg.importFinished], none)
      else (head ++ [Ev.post ct cs, Ev.msg Msg.importError], none)

/-- `FitLayoutCLI.import_file`: `file` is the content of the input file
(`none` when the file does not exist), `net` the outcome of each POST. -/
def import_file (file : Option (List Char)) (format : String)
    (split : Option Nat) (net : Nat → Bool) : List Ev × Option PyErr :=
  match mime_types format with
  | none => ([Ev.msg (Msg.unsupportedFormat format supportedFormats)], none)
  | some ct =>
      if splitTruthy split ∧ (format = "nquads" ∨ format = "n3") then
        chunkedImport ct (split.getD 0) file net
      else
        singleImport ct format (splitTruthy split) file net

/-- `FitLayoutCLI.dump`: the `Accept` header is looked up before any
request; an unsupported format only prints the diagnostic. On a
non-success GET, `raise_for_status` raises and nothing in `dump` catches
it. `text` is the response body, `toFile` whether an output file was
given. -/
def dump (format : String) (toFile : Bool) (netOk : Bool)
    (text : List Char) : List Ev × Option PyErr :=
  match mime_types format with
  | none => ([Ev.msg (Msg.unsupportedFormat format supportedFormats)], none)
  | some accept =>
      if netOk then
        if toFile then ([Ev.get accept, Ev.openOut, Ev.writeOut text], none)
        else ([Ev.get accept, Ev.msg (Msg.textOut text)], none)
      else ([Ev.get accept], some PyErr.httpError)

/-- `FitLayoutCLI.export` (named `exportGraph` here because `export` is a
Lean keyword). The rdflib serializer is abstracted as
`ser : String → Option (List Char)` (`none` models `graph.serialize`
raising its plugin error for a format it does not know). When an output
file is given, the `with open(output_file, "w")` opens (truncating) the
file first, and only then is `artifact_graph.serialize(format=format)`
evaluated inside the block. The method performs no format check of its
own. -/
def exportGraph (ser : String → Option (List Char)) (format : String)
    (toFile : Bool) : List Ev × Option PyErr :=
  if toFile then
    match ser format with
    | some text => ([Ev.openOut, Ev.writeOut text], none)
    | none => ([Ev.openOut], some (PyErr.pluginError format))
  else
    match ser format with
    | some text => ([Ev.msg (Msg.textOut text)], none)
    | none => ([], some (PyErr.pluginError format))

/-- Modelled from the spec: the canonical namespace-prefix block returned
by `default_prefix_string()` of the `flclient` package (the package is
not part of the sources at hand, only `cli.py` is); per the spec it is a
fixed block of PREFIX declarations covering at least the artifact, box
and segmentation vocabularies. Its exact content is irrelevant to the
claims; only that it is one fixed string. -/
def default_prefix_string : String :=
  "PREFIX fl: <http://fitlayout.github.io/ontology/fitlayout.owl#> " ++
  "PREFIX box: <http://fitlayout.github.io/ontology/render.owl#> " ++
  "PREFIX segm: <http://fitlayout.github.io/ontology/segmentation.owl#> " ++
  "PREFIX rdf: <http://www.w3.org/1999/02/22-rdf-syntax-ns#> " ++
  "PREFIX rdfs: <http://www.w3.org/2000/01/rdf-schema#> "

/-- The SPARQL text that `FitLayoutCLI.query` hands to `self.fl.sparql`. -/
def queryText (q : String) (auto_prefixes : Bool) : String :=
  if auto_prefixes then default_prefix_string ++ q else q

/-- `FitLayoutCLI.query`, with the SPARQL layer abstracted as a function
of the query text. -/
def cliQuery (sparqlFn : String → List String) (q : String)
    (auto_prefixes : Bool) : List String :=
  sparqlFn (queryText q auto_prefixes)

/-- Values of a service parameter map. -/
inductive PVal where
  | s (v : String)
  | n (v : Int)
  | b (v : Bool)
  deriving DecidableEq

/-- One `d[k] = v` step of python's `dict.update`: replaces the value of
an existing key in place, otherwise appends the new binding. -/
def dictInsert (d : List (String × PVal)) (k : String) (v : PVal) :
    List (String × PVal) :=
  match d with
  | [] => [(k, v)]
  | (k', v') :: rest =>
      if k' = k then (k', v) :: rest else (k', v') :: dictInsert rest k v

/-- Python dictionary lookup (`d.get(k)`): the value bound to the first
occurrence of the key. -/
def plookup (k : String) : List (String × PVal) → Option PVal
  | [] => none
  | (k', v) :: rest => if k' = k then some v else plookup k rest

/-- Python's `d.update(p)`: applies every binding of `p`, in order, to
`d`. -/
def dictUpdate (d p : List (String × PVal)) : List (String × PVal) :=
  p.foldl (fun acc kv => dictInsert acc kv.1 kv.2) d

/-- The fresh `service_params` dict literal built by `render`. -/
def renderDefaults (url : String) (width height : Int) : List (String × PVal) :=
  [("url", PVal.s url), ("width", PVal.n width), ("height", PVal.n height)]

/-- The parameter map `FitLayoutCLI.render` passes to
`invoke_artifact_service`. -/
def render (url : String) (width height : Int)
    (params : List (String × PVal)) : List (String × PVal) :=
  dictUpdate (renderDefaults url width height) params

/-- `FitLayoutCLI.render` with the caller's `params` object tracked: the
first component is the service parameter map sent, the second the value
of the caller's `params` dictionary after the call (the method only
reads `params`; `update` is invoked on the fresh `service_params`
literal). -/
def renderCall (url : String) (width height : Int)
    (params : List (String × PVal)) :
    List (String × PVal) × List (String × PVal) :=
  (dictUpdate (renderDefaults url width height) params, params)

/-- A 250-line n-quads payload (each line is the two characters `x`
followed by a newline). -/
def file250 : List Char := (List.replicate 250 ['x', '\n']).flatten

/-- A network on which the first POST succeeds and the second fails. -/
def netFailSecond : Nat → Bool := fun k => decide (k = 0)

/-- A concrete stand-in for the rdflib serializer: it knows exactly the
five formats of `mime_types` and raises (returns `none`) on any other. -/
def serFive : String → Option (List Char) :=
  fun format => if (mime_types format).isSome then some ['<', 'g', '>'] else none

@[simp]
theorem posts_nil : posts [] = [] := rfl

@[simp]
theorem posts_cons_msg (m : Msg) (evs : List Ev) :
    posts (Ev.msg m :: evs) = posts evs := rfl

@[simp]
theorem posts_cons_post (ct : String) (b : List Char) (evs : List Ev) :
    posts (Ev.post ct b :: evs) = (ct, b) :: posts evs := rfl

@[simp]
theorem posts_append (a b : List Ev) : posts (a ++ b) = posts a ++ posts b := by
  simp [posts]

@[simp]
theorem succReports_nil : succReports [] = [] := rfl

@[simp]
theorem succReports_cons_post (ct : String) (b : List Char) (evs : List Ev) :
    succReports (Ev.post ct b :: evs) = succReports evs := rfl

@[simp]
theorem succReports_cons_uploadedLines (n : Nat) (evs : List Ev) :
    succReports (Ev.msg (Msg.uploadedLines n) :: evs) = n :: succReports evs := rfl

@[simp]
theorem succReports_cons_uploadedRemaining (n : Nat) (evs : List Ev) :
    succReports (Ev.msg (Msg.uploadedRemaining n) :: evs) = n :: succReports evs := rfl

@[simp]
theorem succReports_cons_importingChunks (n : Nat) (evs : List Ev) :
    succReports (Ev.msg (Msg.importingChunks n) :: evs) = succReports evs := rfl

@[simp]
theorem succReports_cons_importError (evs : List Ev) :
    succReports (Ev.msg Msg.importError :: evs) = succReports evs := rfl

@[simp]
theorem succReports_cons_importFinished (evs : List Ev) :
    succReports (Ev.msg Msg.importFinished :: evs) = succReports evs := rfl

@[simp]
theorem succReports_append (a b : List Ev) :
    succReports (a ++ b) = succReports a ++ succReports b := by
  simp [succReports]

theorem chunkGo_ok (ct : String) (N : Nat) (net : Nat → Bool)
    (hnet : ∀ k, net k = true) : ∀ (lines : List (List Char)) (i k : Nat)
    (chunk : List (List Char)),
    posts (chunkGo ct N net k i chunk lines).1
        = (chunksGo N i chunk lines).map (fun b => (ct, b))
      ∧ (chunkGo ct N net k i chunk lines).2 = none := by
  intro lines
  induction lines with
  | nil =>
      intro i k chunk
      by_cases h : chunk.isEmpty
      · simp [chunkGo, chunksGo, h]
      · simp [chunkGo, chunksGo, h, hnet k]
  | cons line rest ih =>
      intro i k chunk
      by_cases h : (i + 1) % N = 0
      · have hrec := ih (i + 1) (k + 1) []
        simp [chunkGo, chunksGo, h, hnet k, hrec.1, hrec.2]
      · simpa [chunkGo, chunksGo, h] using ih (i + 1) k (chunk ++ [line])

theorem chunkGo_posts_single (ct : String) (N : Nat) (net : Nat → Bool) :
    ∀ (lines : List (List Char)) (i k : Nat) (chunk : List (List Char)),
    i + lines.length ≤ N →
    posts (chunkGo ct N net k i chunk lines).1
      = if (chunk ++ lines).isEmpty then []
        else [(ct, (chunk ++ lines).flatten)] := by
  intro lines
  induction lines with
  | nil =>
      intro i k chunk _
      by_cases h : chunk.isEmpty
      · simp [chunkGo, h]
      · cases hk : net k <;> simp [chunkGo, h, hk]
  | cons line rest ih =>
      intro i k chunk hle
      simp only [List.length_cons] at hle
      by_cases h : (i + 1) % N = 0
      · have hdvd : N ∣ i + 1 := Nat.dvd_of_mod_eq_zero h
        have hge : N ≤ i + 1 := Nat.le_of_dvd (by omega) hdvd
        have hrest : rest = [] := List.length_eq_zero.mp (by omega)
        subst hrest
        cases hk : net k <;> simp [chunkGo, h, hk]
      · have hrec := ih (i + 1) k (chunk ++ [line]) (by omega)
        simp only [chunkGo, if_neg h]
        rw [hrec]
        simp

theorem chunkGo_fail (ct : String) (N : Nat) (net : Nat → Bool) :
    ∀ (lines : List (List Char)) (i k j : Nat) (chunk : List (List Char)),
    net (k + j) = false → (∀ d, d < j → net (k + d) = true) →
    j < (chunksGo N i chunk lines).length →
    posts (chunkGo ct N net k i chunk lines).1
        = ((chunksGo N i chunk lines).take (j + 1)).map (fun b => (ct, b))
      ∧ (chunkGo ct N net k i chunk lines).2 = some PyErr.httpError
      ∧ (succReports (chunkGo ct N net k i chunk lines).1).length = j := by
  intro lines
  induction lines with
  | nil =>
      intro i k j chunk hfail hok hj
      by_cases h : chunk.isEmpty
      · simp [chunksGo, h] at hj
      · simp only [chunksGo, if_neg h, List.length_cons, List.length_nil] at hj
        have hj0 : j = 0 := by omega
        subst hj0
        simp only [Nat.add_zero] at hfail
        simp [chunkGo, chunksGo, h, hfail]
  | cons line rest ih =>
      intro i k j chunk hfail hok hj
      by_cases h : (i + 1) % N = 0
      · cases hk : net k with
        | false =>
            have hj0 : j = 0 := by
              by_contra hne
              have := hok 0 (by omega)
              rw [Nat.add_zero] at this
              rw [this] at hk
              simp at hk
            subst hj0
            simp [chunkGo, chunksGo, h, hk]
        | true =>
            have hj1 : j ≠ 0 := by
              intro h0
              subst h0
              rw [Nat.add_zero] at hfail
              rw [hfail] at hk
              simp at hk
            obtain ⟨j', rfl⟩ : ∃ j', j = j' + 1 := ⟨j - 1, by omega⟩
            have hfail' : net (k + 1 + j') = false := by
              rw [show k + 1 + j' = k + (j' + 1) from by omega]
              exact hfail
            have hok' : ∀ d, d < j' → net (k + 1 + d) = true := by
              intro d hd
              rw [show k + 1 + d = k + (d + 1) from by omega]
              exact hok (d + 1) (by omega)
            have hj' : j' < (chunksGo N (i + 1) [] rest).length := by
              simp only [chunksGo, if_pos h, List.length_cons] at hj
              omega
            have hrec := ih (i + 1) (k + 1) j' [] hfail' hok' hj'
            simp only [chunkGo, chunksGo, if_pos h, hk, if_true]
            refine ⟨?_, hrec.2.1, ?_⟩
            · simp only [posts_cons_post, posts_cons_msg, hrec.1, List.take_succ_cons,
                List.map_cons]
            · simp only [succReports_cons_post, succReports_cons_uploadedLines,
                List.length_cons, hrec.2.2]
      · have hj' : j < (chunksGo N (i + 1) (chunk ++ [line]) rest).length := by
          simpa [chunksGo, h] using hj
        have hrec := ih (i + 1) k j (chunk ++ [line]) hfail hok hj'
        simpa [chunkGo, chunksGo, h] using hrec

theorem import_file_nquads_chunked (file : Option (List Char)) (N : Nat)
    (hN : 0 < N) (net : Nat → Bool) :
    import_file file "nquads" (some N) net
      = chunkedImport "application/n-quads" N file net := by
  have hm : mime_types "nquads" = some "application/n-quads" := rfl
  simp [import_file, hm, splitTruthy, hN.ne']

theorem import_file_n3_chunked (file : Option (List Char)) (N : Nat)
    (hN : 0 < N) (net : Nat → Bool) :
    import_file file "n3" (some N) net
      = chunkedImport "application/n-triples" N file net := by
  have hm : mime_types "n3" = some "application/n-triples" := rfl
  simp [import_file, hm, splitTruthy, hN.ne']

theorem chunkedImport_of_ok (ct : String) (N : Nat) (cs : List Char)
    (net : Nat → Bool) (h2 : (chunkGo ct N net 0 0 [] (pyLines cs)).2 = none) :
    chunkedImport ct N (some cs) net
      = (Ev.msg (Msg.importingChunks N) :: (chunkGo ct N net 0 0 [] (pyLines cs)).1
          ++ [Ev.msg Msg.importFinished], none) := by
  simp [chunkedImport, h2]

theorem chunkedImport_of_fail (ct : String) (N : Nat) (cs : List Char)
    (net : Nat → Bool) (e : PyErr)
    (h2 : (chunkGo ct N net 0 0 [] (pyLines cs)).2 = some e) :
    chunkedImport ct N (some cs) net
      = (Ev.msg (Msg.importingChunks N) :: (chunkGo ct N net 0 0 [] (pyLines cs)).1
          ++ [Ev.msg Msg.importError], none) := by
  simp [chunkedImport, h2]

theorem posts_chunkedImport (ct : String) (N : Nat) (cs : List Char)
    (net : Nat → Bool) :
    posts (chunkedImport ct N (some cs) net).1
      = posts (chunkGo ct N net 0 0 [] (pyLines cs)).1 := by
  cases h2 : (chunkGo ct N net 0 0 [] (pyLines cs)).2 with
  | none =>
      rw [chunkedImport_of_ok ct N cs net h2]
      simp
  | some e =>
      rw [chunkedImport_of_fail ct N cs net e h2]
      simp

theorem mime_types_eq_none (format : String)
    (h : format ∉ (["turtle", "n3", "json-ld", "xml", "nquads"] : List String)) :
    mime_types format = none := by
  simp only [List.mem_cons, List.not_mem_nil, or_false, not_or] at h
  obtain ⟨h1, h2, h3, h4, h5⟩ := h
  simp [mime_types, h1, h2, h3, h4, h5]

theorem plookup_dictInsert (d : List (String × PVal)) (k k' : String) (v : PVal) :
    plookup k' (dictInsert d k v)
      = if k = k' then some v else plookup k' d := by
  induction d with
  | nil => simp [dictInsert, plookup]
  | cons kv rest ih =>
      obtain ⟨a, b⟩ := kv
      by_cases hak : a = k
      · subst hak
        by_cases hk : a = k' <;> simp [dictInsert, plookup, hk]
      · simp only [dictInsert, if_neg hak, plookup]
        rw [ih]
        by_cases hk1 : a = k'
        · have hk2 : k ≠ k' := fun h => hak (hk1.trans h.symm)
          simp [hk1, hk2]
        · simp [hk1]

theorem plookup_eq_none_of_not_mem_keys (l : List (String × PVal)) (k : String)
    (h : k ∉ l.map Prod.fst) : plookup k l = none := by
  induction l with
  | nil => simp [plookup]
  | cons kv rest ih =>
      obtain ⟨a, b⟩ := kv
      simp only [List.map_cons, List.mem_cons, not_or] at h
      simp [plookup, Ne.symm h.1, ih h.2]

theorem plookup_dictUpdate (p : List (String × PVal)) : ∀ (d : List (String × PVal))
    (k : String), (p.map Prod.fst).Nodup →
    plookup k (dictUpdate d p)
      = (plookup k p).orElse fun _ => plookup k d := by
  induction p with
  | nil =>
      intro d k _
      simp [dictUpdate, plookup, Option.orElse]
  | cons kv rest ih =>
      intro d k hnd
      obtain ⟨k1, v1⟩ := kv
      simp only [List.map_cons, List.nodup_cons] at hnd
      have hupd : dictUpdate d ((k1, v1) :: rest)
          = dictUpdate (dictInsert d k1 v1) rest := rfl
      rw [hupd, ih (dictInsert d k1 v1) k hnd.2]
      simp only [plookup_dictInsert]
      by_cases hk : k1 = k
      · subst hk
        have hnone : plookup k1 rest = none :=
          plookup_eq_none_of_not_mem_keys rest k1 hnd.1
        simp [plookup, hnone, Option.orElse]
      · simp [plookup, hk, Option.orElse]

/-- Claim C1: for every payload and every chunk line count N > 0, importing
in a line-chunkable format (nquads or n3) with every chunk write
succeeding, concatenating in order the bodies of all chunk POSTs issued by
`import_file` reproduces the original payload exactly, and every chunk
boundary falls on a line break: every chunk except the last is non-empty
and ends with a newline character. -/
theorem chunked_import_roundtrip (cs : List Char) (N : Nat) (hN : 0 < N)
    (format : String) (hf : format = "nquads" ∨ format = "n3")
    (net : Nat → Bool) (hnet : ∀ k, net k = true) :
    (postBodies (import_file (some cs) format (some N) net).1).flatten = cs
    ∧ ∀ b ∈ (postBodies (import_file (some cs) format (some N) net).1).dropLast,
        b ≠ [] ∧ b.getLast? = some '\n' := by
  obtain ⟨ct, hct⟩ : ∃ ct, import_file (some cs) format (some N) net
      = chunkedImport ct N (some cs) net := by
    rcases hf with hf | hf <;> subst hf
    · exact ⟨_, import_file_nquads_chunked (some cs) N hN net⟩
    · exact ⟨_, import_file_n3_chunked (some cs) N hN net⟩
  have hok := chunkGo_ok ct N net hnet (pyLines cs) 0 0 []
  have hbodies : postBodies (import_file (some cs) format (some N) net).1
      = chunksGo N 0 [] (pyLines cs) := by
    rw [hct]
    simp [postBodies, posts_chunkedImport, hok.1, List.map_map, Function.comp]
  rw [hbodies]
  constructor
  · rw [show chunksGo N 0 [] (pyLines cs) = importChunks N (pyLines cs) from rfl,
      importChunks_flatten, pyLines_flatten]
  · intro b hb
    exact chunksGo_dropLast_newline N (pyLines cs) 0 []
      (fun _ l hl => absurd hl (List.not_mem_nil l))
      (fun l hl => ⟨pyLinesAux_ne_nil cs [] l (List.mem_of_mem_dropLast hl),
        pyLinesAux_dropLast_newline cs [] l hl⟩) b hb

/-- Witness for C1 at a concrete three-character payload with a line break
in the middle, N = 1, format nquads, all writes succeeding. -/
theorem chunked_import_roundtrip_inst :
    (postBodies (import_file (some ['a', '\n', 'b']) "nquads" (some 1) allOk).1).flatten
      = ['a', '\n', 'b'] :=
  (chunked_import_roundtrip ['a', '\n', 'b'] 1 (by decide) "nquads" (Or.inl rfl)
    allOk (fun _ => rfl)).1

set_option maxRecDepth 100000 in
/-- Claim C2 (amended, L ≥ 1 added to the single-chunk half): importing the
250-line n-quads file with split = 100 and all writes succeeding issues
exactly three POSTs of 100, 100 and 50 lines, in that source order, each
with content type `application/n-quads`, whose bodies concatenate to the
file; and every n-quads import of a file with L lines, 1 ≤ L ≤ N, with
split = N issues exactly one POST carrying the whole file. -/
theorem chunk_sizes_example_and_single_chunk :
    ((posts (import_file (some file250) "nquads" (some 100) allOk).1).map
        (fun p => (p.1, (pyLines p.2).length))
      = [("application/n-quads", 100), ("application/n-quads", 100),
          ("application/n-quads", 50)])
    ∧ (postBodies (import_file (some file250) "nquads" (some 100) allOk).1).flatten
        = file250
    ∧ ∀ (cs : List Char) (N : Nat) (net : Nat → Bool),
        1 ≤ (pyLines cs).length → (pyLines cs).length ≤ N →
        posts (import_file (some cs) "nquads" (some N) net).1
          = [("application/n-quads", cs)] := by
  refine ⟨by rfl, by rfl, ?_⟩
  intro cs N net h1 h2
  have hN : 0 < N := by omega
  rw [import_file_nquads_chunked (some cs) N hN net, posts_chunkedImport,
    chunkGo_posts_single "application/n-quads" N net (pyLines cs) 0 0 []
      (by simpa using h2)]
  have hne : pyLines cs ≠ [] := by
    intro hnil
    rw [hnil] at h1
    simp at h1
  rw [List.nil_append, if_neg (by simpa [List.isEmpty_iff] using hne),
    pyLines_flatten]

/-- Witness for the quantified half of C2 at a concrete one-line payload
with N = 5. -/
theorem chunk_sizes_example_and_single_chunk_inst :
    posts (import_file (some ['a', '\n']) "nquads" (some 5) allOk).1
      = [("application/n-quads", ['a', '\n'])] :=
  chunk_sizes_example_and_single_chunk.2.2 ['a', '\n'] 5 allOk (by decide) (by decide)

/-- Counterexample to C2 as stated: for an empty (0-line) n-quads file and
split = 100 we have N ≥ L, yet `import_file` issues no POST at all —
not exactly one chunk containing the whole file. -/
theorem single_chunk_empty_file :
    posts (import_file (some []) "nquads" (some 100) allOk).1 = [] := by decide

/-- Claim C3 (amended: the HTTP error is caught and printed, not raised):
if the write of chunk j fails after j successful chunk writes, then
`import_file` returns normally (no exception reaches the caller), the
POSTs issued are exactly the first j successful chunks plus the failing
chunk j — no write is issued for any later chunk and the earlier uploads
stand un-reverted — the error diagnostic is printed, and one success
report per completed chunk (j in total) tells the caller how much
succeeded before the failure. -/
theorem chunked_failure_aborts (cs : List Char) (N j : Nat) (hN : 0 < N)
    (net : Nat → Bool) (hfail : net j = false) (hok : ∀ k, k < j → net k = true)
    (hj : j < (importChunks N (pyLines cs)).length) :
    (import_file (some cs) "nquads" (some N) net).2 = none
    ∧ posts (import_file (some cs) "nquads" (some N) net).1
        = ((importChunks N (pyLines cs)).take (j + 1)).map
            (fun b => ("application/n-quads", b))
    ∧ Ev.msg Msg.importError ∈ (import_file (some cs) "nquads" (some N) net).1
    ∧ (succReports (import_file (some cs) "nquads" (some N) net).1).length = j := by
  have hfail0 : net (0 + j) = false := by simpa using hfail
  have hok0 : ∀ d, d < j → net (0 + d) = true := by
    intro d hd
    simpa using hok d hd
  have hfl := chunkGo_fail "application/n-quads" N net (pyLines cs) 0 0 j []
    hfail0 hok0 hj
  rw [import_file_nquads_chunked (some cs) N hN net,
    chunkedImport_of_fail "application/n-quads" N cs net PyErr.httpError hfl.2.1]
  refine ⟨rfl, ?_, ?_, ?_⟩
  · simpa using hfl.1
  · simp
  · simpa using hfl.2.2

/-- Witness for C3 at a concrete four-line payload, split = 2, where the
first chunk write succeeds and the second fails. -/
theorem chunked_failure_aborts_inst :
    (import_file (some ['a', '\n', 'b', '\n', 'c', '\n', 'd', '\n']) "nquads"
        (some 2) netFailSecond).2 = none :=
  (chunked_failure_aborts ['a', '\n', 'b', '\n', 'c', '\n', 'd', '\n'] 2 1
    (by decide) netFailSecond (by decide)
    (fun k hk => by
      have hk0 : k = 0 := Nat.lt_one_iff.mp hk
      rw [hk0]
      rfl)
    (by decide)).1

/-- Counterexample to C3 as stated: with a three-line file, split = 2, and
the second POST failing with a non-success status, `import_file` raises
nothing — it returns normally with the error only printed (second result
component `none`), so no `RepositoryHTTPError` (nor any exception)
reaches the caller. -/
theorem chunked_failure_no_raise :
    import_file (some ['a', '\n', 'b', '\n', 'c', '\n']) "nquads" (some 2)
        netFailSecond
      = ([Ev.msg (Msg.importingChunks 2),
          Ev.post "application/n-quads" ['a', '\n', 'b', '\n'],
          Ev.msg (Msg.uploadedLines 2),
          Ev.post "application/n-quads" ['c', '\n'],
          Ev.msg Msg.importError], none) := by decide

/-- Claim C4 (amended: the condition is reported by a printed diagnostic,
not by a raised exception): for every supported format, every split value
and any network, importing a missing file issues zero POSTs, prints the
file-not-found diagnostic, and returns normally — the `FileNotFoundError`
from `open` is caught inside `import_file`. Holds in both the chunked and
the single-shot path. -/
theorem missing_file_no_network (format ct : String) (split : Option Nat)
    (net : Nat → Bool) (hct : mime_types format = some ct) :
    posts (import_file none format split net).1 = []
    ∧ (import_file none format split net).2 = none
    ∧ Ev.msg Msg.fileNotFound ∈ (import_file none format split net).1 := by
  simp only [import_file, hct]
  by_cases hb : (splitTruthy split = true) ∧ (format = "nquads" ∨ format = "n3")
  · simp [if_pos hb, chunkedImport]
  · simp only [if_neg hb]
    by_cases hw : splitTruthy split <;> simp [singleImport, hw]

/-- Witness for C4 at format turtle, split = 3 (single-shot path). -/
theorem missing_file_no_network_inst :
    posts (import_file none "turtle" (some 3) allOk).1 = [] :=
  (missing_file_no_network "turtle" "text/turtle" (some 3) allOk rfl).1

/-- Counterexample to C4 as stated: importing a missing nquads file with
split = 10 returns normally — the result's exception component is `none`,
so no `SourceNotFoundError` (nor any exception) reaches the caller; the
failure is only printed. (The zero-network-calls half of the claim does
hold.) -/
theorem missing_file_no_raise :
    import_file none "nquads" (some 10) allOk
      = ([Ev.msg (Msg.importingChunks 10), Ev.msg Msg.fileNotFound], none) := by
  decide

/-- Claim C5 (amended): `export` performs no format validation of its own
and never produces an unsupported-format diagnostic; when an output file
is supplied the file is opened — created or truncated — before the
serializer runs, so an unknown format leaves the opened (emptied) file
behind and the escaping error is the serializer's own plugin error, not
an `UnsupportedFormatError` listing the valid formats; on a format the
serializer accepts, the serialized text of exactly that format is
written. -/
theorem export_no_validation (ser : String → Option (List Char)) (format : String) :
    (∀ f s, Ev.msg (Msg.unsupportedFormat f s) ∉ (exportGraph ser format true).1
        ∧ Ev.msg (Msg.unsupportedFormat f s) ∉ (exportGraph ser format false).1)
    ∧ (exportGraph ser format true).1.head? = some Ev.openOut
    ∧ (ser format = none →
        exportGraph ser format true = ([Ev.openOut], some (PyErr.pluginError format)))
    ∧ ∀ text, ser format = some text →
        exportGraph ser format true = ([Ev.openOut, Ev.writeOut text], none) := by
  cases hs : ser format with
  | none => simp [exportGraph, hs]
  | some t => simp [exportGraph, hs]

/-- Witness for C5 at the concrete serializer and format turtle (the
success conjunct, discharging its hypothesis). -/
theorem export_no_validation_inst :
    exportGraph serFive "turtle" true
      = ([Ev.openOut, Ev.writeOut ['<', 'g', '>']], none) :=
  (export_no_validation serFive "turtle").2.2.2 ['<', 'g', '>'] rfl

/-- Counterexample to C5 as stated: exporting with unsupported format
"pdf" to an output file opens (creates/truncates) the output file — the
trace contains the open event — before the serializer fails, and what
escapes is the serializer's plugin error, not an `UnsupportedFormatError`
naming the value and listing valid formats; no such diagnostic appears in
the trace. -/
theorem export_unsupported_opens_file :
    exportGraph serFive "pdf" true
      = ([Ev.openOut], some (PyErr.pluginError "pdf")) := by decide

/-- Claim C6: for every format string outside the five-name enumeration,
`dump` performs zero HTTP calls — its whole trace is the single diagnostic
listing the five valid format names (`supportedFormats`) — and it returns
normally; no request event ever occurs for an unrecognized format. -/
theorem dump_unsupported_no_http (format : String) (toFile netOk : Bool)
    (text : List Char)
    (h : format ∉ (["turtle", "n3", "json-ld", "xml", "nquads"] : List String)) :
    dump format toFile netOk text
      = ([Ev.msg (Msg.unsupportedFormat format supportedFormats)], none) := by
  simp [dump, mime_types_eq_none format h]

/-- Witness for C6 at format "pdf". -/
theorem dump_unsupported_no_http_inst :
    dump "pdf" false true ['x']
      = ([Ev.msg (Msg.unsupportedFormat "pdf" supportedFormats)], none) :=
  dump_unsupported_no_http "pdf" false true ['x'] (by decide)

/-- Claim C7: with auto_prefixes true, the query text handed to the SPARQL
layer is exactly the canonical prefix block followed by the caller's
query; with auto_prefixes false the caller's query is passed through to
the SPARQL layer completely unchanged. -/
theorem query_auto_prefixes (q : String) (sparqlFn : String → List String) :
    queryText q true = default_prefix_string ++ q
    ∧ queryText q false = q
    ∧ cliQuery sparqlFn q true = sparqlFn (default_prefix_string ++ q)
    ∧ cliQuery sparqlFn q false = sparqlFn q :=
  ⟨rfl, rfl, rfl, rfl⟩

/-- Claim C8: the parameter map `render` sends is the merge of the
well-known defaults (url, width, height) with the caller's params: for
every key, the sent value is the caller's when the key occurs in params
(caller wins on collision), and the default otherwise. -/
theorem render_params_merge (url : String) (width height : Int)
    (params : List (String × PVal)) (key : String)
    (hnd : (params.map Prod.fst).Nodup) :
    plookup key (render url width height params)
      = (plookup key params).orElse fun _ =>
          plookup key (renderDefaults url width height) :=
  plookup_dictUpdate params (renderDefaults url width height) key hnd

/-- Witness for C8 at a params map that collides with the width default:
the caller's value wins. -/
theorem render_params_merge_inst :
    plookup "width" (render "http://x" 1200 800 [("width", PVal.n 500)])
      = (plookup "width" [("width", PVal.n 500)]).orElse fun _ =>
          plookup "width" (renderDefaults "http://x" 1200 800) :=
  render_params_merge "http://x" 1200 800 [("width", PVal.n 500)] "width" (by decide)

/-- Claim C9: supplying a split value with a supported format that is not
line-chunkable does not error: the split-ignored warning diagnostic is
printed, exactly one single-shot POST carrying the entire file is issued,
and the method returns normally. -/
theorem split_ignored_warning (cs : List Char) (format ct : String) (n : Nat)
    (net : Nat → Bool) (hct : mime_types format = some ct) (hn : 0 < n)
    (hq : format ≠ "nquads") (h3 : format ≠ "n3") :
    Ev.msg (Msg.splitIgnoredWarning format)
        ∈ (import_file (some cs) format (some n) net).1
    ∧ posts (import_file (some cs) format (some n) net).1 = [(ct, cs)]
    ∧ (import_file (some cs) format (some n) net).2 = none := by
  have hcond : ¬((splitTruthy (some n) = true)
      ∧ (format = "nquads" ∨ format = "n3")) := by
    rintro ⟨-, hf | hf⟩
    exacts [hq hf, h3 hf]
  have hw : splitTruthy (some n) = true := by simp [splitTruthy, hn.ne']
  simp only [import_file, hct, if_neg hcond]
  cases hnet : net 0 <;> simp [singleImport, hw, hnet]

/-- Witness for C9 at format turtle with a one-character file and
split = 5. -/
theorem split_ignored_warning_inst :
    posts (import_file (some ['a']) "turtle" (some 5) allOk).1
      = [("text/turtle", ['a'])] :=
  (split_ignored_warning ['a'] "turtle" "text/turtle" 5 allOk rfl (by decide)
    (by decide) (by decide)).2.1

/-- Claim C10: `render` never mutates the caller's params dictionary (the
update is applied to the fresh `service_params` literal), so the shared
default params object is unchanged after a call and two successive calls
through the shared default object build identical service parameter
maps. -/
theorem render_no_mutation (url : String) (width height : Int)
    (params : List (String × PVal)) :
    (renderCall url width height params).2 = params
    ∧ (renderCall url width height ((renderCall url width height []).2)).1
        = (renderCall url width height []).1
    ∧ (renderCall url width height ((renderCall url width height []).2)).2 = [] :=
  ⟨rfl, rfl, rfl⟩

end FLClient
